import Mathlib

/-!
Verification of the checksum-stamping / edit-detection core of the
WWMI-TOOLS repository (`blender_export/ini_maker.py`), together with a
model of the hierarchical INI builder it drives.

The embedding is shallow and executable:
* SHA-256 is implemented over `Nat` with explicit reduction modulo `2^32`,
  mirroring `hashlib.sha256(...).hexdigest()` (FIPS 180-4);
* Python strings are modelled as Lean `String`s; `str.strip`, `str.replace`,
  `str.startswith`, `''.join` and text-mode line splitting (`list(f)`) have
  dedicated models below, each faithful to CPython semantics for the
  inputs that occur here (ASCII whitespace, nonempty patterns);
* `is_ini_edited` returns `Option Bool`: `none` models an uncaught Python
  exception (indexing `data[-1]` on an empty list raises `IndexError`).
-/

namespace WWMI

/-! ### SHA-256 (model of `hashlib.sha256(·).hexdigest()`) -/

/-- The sixteen lowercase hexadecimal digits used by `hexdigest()`. -/
def hexDigitsL : List Char := ("0123456789abcdef").data

/-- Hex digit character for a nibble. -/
def hexChar (n : Nat) : Char := hexDigitsL.getD n '0'

/-- Fixed-width (8 hex chars) rendering of a 32-bit word. -/
def hex8 (w : Nat) : List Char :=
  [hexChar ((w >>> 28) % 16), hexChar ((w >>> 24) % 16),
   hexChar ((w >>> 20) % 16), hexChar ((w >>> 16) % 16),
   hexChar ((w >>> 12) % 16), hexChar ((w >>> 8) % 16),
   hexChar ((w >>> 4) % 16), hexChar (w % 16)]

/-- Right rotation of a 32-bit word (input assumed `< 2^32`). -/
def rotr (n w : Nat) : Nat := ((w >>> n) ||| (w <<< (32 - n))) % 4294967296

def bsig0 (w : Nat) : Nat := (rotr 2 w) ^^^ (rotr 13 w) ^^^ (rotr 22 w)

def bsig1 (w : Nat) : Nat := (rotr 6 w) ^^^ (rotr 11 w) ^^^ (rotr 25 w)

def ssig0 (w : Nat) : Nat := (rotr 7 w) ^^^ (rotr 18 w) ^^^ (w >>> 3)

def ssig1 (w : Nat) : Nat := (rotr 17 w) ^^^ (rotr 19 w) ^^^ (w >>> 10)

/-- The eight 32-bit words of SHA-256 working state. -/
structure Hash8 where
  a : Nat
  b : Nat
  c : Nat
  d : Nat
  e : Nat
  f : Nat
  g : Nat
  h : Nat

/-- SHA-256 round constants. -/
def K256 : List Nat :=
  [1116352408, 1899447441, 3049323471, 3921009573, 961987163, 1508970993,
   2453635748, 2870763221, 3624381080, 310598401, 607225278, 1426881987,
   1925078388, 2162078206, 2614888103, 3248222580, 3835390401, 4022224774,
   264347078, 604807628, 770255983, 1249150122, 1555081692, 1996064986,
   2554220882, 2821834349, 2952996808, 3210313671, 3336571891, 3584528711,
   113926993, 338241895, 666307205, 773529912, 1294757372, 1396182291,
   1695183700, 1986661051, 2177026350, 2456956037, 2730485921, 2820302411,
   3259730800, 3345764771, 3516065817, 3600352804, 4094571909, 275423344,
   430227734, 506948616, 659060556, 883997877, 958139571, 1322822218,
   1537002063, 1747873779, 1955562222, 2024104815, 2227730452, 2361852424,
   2428436474, 2756734187, 3204031479, 3329325298]

/-- SHA-256 initial hash value. -/
def H0sha : Hash8 :=
  ⟨1779033703, 3144134277, 1013904242, 2773480762,
   1359893119, 2600822924, 528734635, 1541459225⟩

/-- One SHA-256 compression round. -/
def shaRound (s : Hash8) (k w : Nat) : Hash8 :=
  let ch := (s.e &&& s.f) ^^^ ((s.e ^^^ 0xffffffff) &&& s.g)
  let t1 := (s.h + bsig1 s.e + ch + k + w) % 4294967296
  let maj := (s.a &&& s.b) ^^^ (s.a &&& s.c) ^^^ (s.b &&& s.c)
  let t2 := (bsig0 s.a + maj) % 4294967296
  ⟨(t1 + t2) % 4294967296, s.a, s.b, s.c, (s.d + t1) % 4294967296, s.e, s.f, s.g⟩

/-- Message-schedule extension; the accumulator holds the schedule so far,
most recent word first. -/
def extendW : Nat → List Nat → List Nat
  | 0, ws => ws
  | n + 1, ws =>
      extendW n
        (((ssig1 (ws.getD 1 0) + ws.getD 6 0 + ssig0 (ws.getD 14 0) + ws.getD 15 0)
            % 4294967296) :: ws)

/-- Full 64-word message schedule from a 16-word block. -/
def schedule (blk : List Nat) : List Nat := (extendW 48 blk.reverse).reverse

/-- Process one 512-bit block. -/
def processBlock (s0 : Hash8) (blk : List Nat) : Hash8 :=
  let st := (List.zip K256 (schedule blk)).foldl (fun s p => shaRound s p.1 p.2) s0
  ⟨(s0.a + st.a) % 4294967296, (s0.b + st.b) % 4294967296,
   (s0.c + st.c) % 4294967296, (s0.d + st.d) % 4294967296,
   (s0.e + st.e) % 4294967296, (s0.f + st.f) % 4294967296,
   (s0.g + st.g) % 4294967296, (s0.h + st.h) % 4294967296⟩

/-- Big-endian 64-bit length field of the padding. -/
def be64 (n : Nat) : List Nat :=
  [(n >>> 56) % 256, (n >>> 48) % 256, (n >>> 40) % 256, (n >>> 32) % 256,
   (n >>> 24) % 256, (n >>> 16) % 256, (n >>> 8) % 256, n % 256]

/-- FIPS 180-4 padding: a `0x80` byte, zeros to 56 mod 64, then the
bit length, big-endian. -/
def padBytes (msg : List Nat) : List Nat :=
  msg ++ 128 :: (List.replicate ((119 - msg.length % 64) % 64) 0 ++ be64 (8 * msg.length))

/-- Group bytes four at a time into big-endian 32-bit words. -/
def toWords : List Nat → List Nat
  | b0 :: b1 :: b2 :: b3 :: rest =>
      (((b0 <<< 24) ||| (b1 <<< 16)) ||| ((b2 <<< 8) ||| b3)) :: toWords rest
  | _ => []

/-- Split a padded byte list into `n` 16-word blocks. -/
def toBlocks : Nat → List Nat → List (List Nat)
  | 0, _ => []
  | n + 1, bytes => toWords (bytes.take 64) :: toBlocks n (bytes.drop 64)

/-- SHA-256 digest of a byte list. -/
def sha256digest (msg : List Nat) : Hash8 :=
  (toBlocks ((padBytes msg).length / 64) (padBytes msg)).foldl processBlock H0sha

/-- UTF-8 encoding of one character (model of `str.encode('utf-8')`). -/
def utf8Char (c : Char) : List Nat :=
  let n := c.toNat
  if n < 128 then [n]
  else if n < 2048 then [192 + n / 64, 128 + n % 64]
  else if n < 65536 then [224 + n / 4096, 128 + (n / 64) % 64, 128 + n % 64]
  else [240 + n / 262144, 128 + (n / 4096) % 64, 128 + (n / 64) % 64, 128 + n % 64]

/-- UTF-8 encoding of a string. -/
def utf8Bytes (s : String) : List Nat := (s.data.map utf8Char).flatten

/-- Model of `hashlib.sha256(s.encode('utf-8')).hexdigest()`. -/
def sha256hex (s : String) : String :=
  let d := sha256digest (utf8Bytes s)
  ⟨hex8 d.a ++ hex8 d.b ++ hex8 d.c ++ hex8 d.d ++ hex8 d.e ++ hex8 d.f ++ hex8 d.g ++ hex8 d.h⟩

/-! ### Python string primitives used by `ini_maker.py` -/

/-- ASCII whitespace stripped by Python `str.strip()` with no argument
(space, tab, newline, carriage return, vertical tab, form feed). -/
def isPySpace (c : Char) : Bool :=
  ((" \t\n\r").data ++ [Char.ofNat 11, Char.ofNat 12]).contains c

/-- Python `str.strip()` on the character list. -/
def stripC (l : List Char) : List Char :=
  ((l.dropWhile isPySpace).reverse.dropWhile isPySpace).reverse

/-- Model of Python `str.strip()`. -/
def pyStrip (s : String) : String := ⟨stripC s.data⟩

/-- Model of Python `str.startswith(p)`. -/
def pyStartsWith (s p : String) : Bool := p.data.isPrefixOf s.data

/-- Worker for `str.replace`: scan left to right, replacing every
non-overlapping occurrence of `old`; `fuel` bounds the recursion and is
instantiated with the length of the subject string (sufficient whenever
`old` is nonempty, as at every call site in the source). -/
def replFuel : Nat → List Char → List Char → List Char → List Char
  | 0, s, _, _ => s
  | fuel + 1, s, old, new =>
      match s with
      | [] => []
      | c :: rest =>
          if old.isPrefixOf (c :: rest) then
            new ++ replFuel fuel ((c :: rest).drop old.length) old new
          else
            c :: replFuel fuel rest old new

/-- Model of Python `str.replace(old, new)` for nonempty `old`. -/
def pyReplace (s old new : String) : String :=
  ⟨replFuel s.data.length s.data old.data new.data⟩

/-- Worker for line splitting: chunks ending in `'\n'` are emitted as they
close; a trailing chunk without a newline is emitted at the end.  The
accumulator holds the current (unfinished) line, reversed. -/
def splitAux : List Char → List Char → List (List Char)
  | [], acc => if acc.isEmpty then [] else [acc.reverse]
  | c :: rest, acc =>
      if c = '\n' then (acc.reverse ++ ['\n']) :: splitAux rest []
      else splitAux rest (c :: acc)

/-- Model of reading an (already newline-translated) text file as
`list(f)` does in Python: the list of lines, each keeping its terminating
newline; a last line without a newline is kept as-is; an empty file gives
an empty list. -/
def fileLines (content : String) : List String :=
  (splitAux content.data []).map (fun l => ⟨l⟩)

/-- Model of Python `''.join(lines)`. -/
def joinS (lines : List String) : String := ⟨(lines.map String.data).flatten⟩

/-! ### Embedding of `ini_maker.py` checksum core -/

/-- The fixed trailer head `'; SHA256 CHECKSUM: '` from `is_ini_edited`. -/
def checksumHead : String := "; SHA256 CHECKSUM: "

/-- The pure core of `is_ini_edited` (source lines 26-45), operating on the
line list `data = list(f)`.  `none` models the uncaught `IndexError` that
`data[-1]` raises on a zero-line file. -/
def is_ini_edited_lines (data : List String) : Option Bool :=
  match data.getLast? with
  | none => none
  | some lastLine =>
      let checksum := pyStrip lastLine
      if pyStartsWith checksum checksumHead = false then
        some false
      else
        let claimed := pyReplace checksum checksumHead ""
        let ini_data := data.dropLast
        let ini_sha256 := sha256hex (joinS ini_data)
        if ini_sha256 ≠ claimed then some true else some false

/-- Function `is_ini_edited(ini_path)`: the file at `ini_path` is modelled by its
text `content`; `open(...)` / `list(f)` become `fileLines`. -/
def is_ini_edited (content : String) : Option Bool :=
  is_ini_edited_lines (fileLines content)

/-- Method `IniMaker.with_checksum` (source lines 83-91): append the checksum
stamp line to the rendered text. -/
def with_checksum (lines : String) : String :=
  lines ++ "; SHA256 CHECKSUM: " ++ sha256hex lines ++ "\n"

/-- Replace the character at index `i` (single-character tamper). -/
def flipAt (t : String) (i : Nat) (c : Char) : String := ⟨t.data.set i c⟩

/-! ### Builder model

Modelled from the spec: the `IniBuilder` class (`ini_builder/IniBuilder.py`)
is not among the provided source files — only its caller `IniMaker` is — so
the hierarchical document builder is modelled from the spec's data model
(§3), component contracts (§4.3, §4.4) and rendered grammar (§6): a body is
an ordered list of comment/command lines, a section is a named, typed unit
with optional hash and leading comment, a group is an indexed bucket of
sections with optional literal header/footer text, and `build` renders the
leading header followed by the groups in ascending index order (headers,
then sections in insertion order, then footer).  Conditional blocks (§4.2)
are not needed by any claim and are left out of the model. -/

/-- Section kinds (§3). -/
inductive SectionKind where
  | constants
  | present
  | resource
  | commandList
  | textureOverride
deriving DecidableEq

/-- One body line: a comment (suppressible unless persistent) or a
command/directive (§3 Line model). -/
inductive BodyLine where
  | comment (text : String) (persistent : Bool)
  | command (text : String)
deriving DecidableEq

/-- A section (§3): name, kind, optional hash, optional leading comment,
ordered body. -/
structure IniSectionM where
  name : String
  kind : SectionKind
  hash : Option String
  comment : Option String
  body : List BodyLine
deriving DecidableEq

/-- A group (§3): numbered bucket of sections with optional literal
header/footer text. -/
structure IniGroupM where
  index : Nat
  header : Option String
  footer : Option String
  sections : List IniSectionM
deriving DecidableEq

/-- The builder (§4.4): comment-suppression option, leading header text,
groups in first-touch order (`build` sorts them). -/
structure IniBuilderM where
  skip_comments : Bool
  header : String
  groups : List IniGroupM
deriving DecidableEq

/-- Builder op `set_group_header(index, text)` (§4.4): lazily create the group. -/
def set_group_header (b : IniBuilderM) (idx : Nat) (text : String) : IniBuilderM :=
  if b.groups.any (fun g => g.index == idx) then
    { b with groups :=
        b.groups.map (fun g => if g.index == idx then { g with header := some text } else g) }
  else
    { b with groups := b.groups ++ [⟨idx, some text, none, []⟩] }

/-- Builder op `set_group_footer(index, text)` (§4.4): lazily create the group. -/
def set_group_footer (b : IniBuilderM) (idx : Nat) (text : String) : IniBuilderM :=
  if b.groups.any (fun g => g.index == idx) then
    { b with groups :=
        b.groups.map (fun g => if g.index == idx then { g with footer := some text } else g) }
  else
    { b with groups := b.groups ++ [⟨idx, none, some text, []⟩] }

/-- Builder op `add_section(section, index)` (§4.4): append to the group at `index`,
auto-created if absent. -/
def add_section (b : IniBuilderM) (s : IniSectionM) (idx : Nat) : IniBuilderM :=
  if b.groups.any (fun g => g.index == idx) then
    { b with groups :=
        b.groups.map (fun g =>
          if g.index == idx then { g with sections := g.sections ++ [s] } else g) }
  else
    { b with groups := b.groups ++ [⟨idx, none, none, [s]⟩] }

/-- Sections of an optionally-found group. -/
def sectionsOf : Option IniGroupM → List IniSectionM
  | some g => g.sections
  | none => []

/-- Sections currently held by the group at `idx` (empty if none). -/
def sectionsAt (b : IniBuilderM) (idx : Nat) : List IniSectionM :=
  sectionsOf (b.groups.find? (fun g => g.index == idx))

/-- Render one body line (§6): `; <text>` for comments — dropped under
suppression unless persistent — and the text itself for commands, each on
its own line. -/
def renderLine (skip : Bool) : BodyLine → String
  | .comment text persistent => if skip && !persistent then "" else "; " ++ text ++ "\n"
  | .command text => text ++ "\n"

/-- Bracketed section title (§3, §6): `Resource`/`TextureOverride`/
`CommandList` kinds prepend their kind to the name; `Constants`/`Present`
sections are singleton and have no title line. -/
def getTitle (s : IniSectionM) : Option String :=
  match s.kind with
  | .resource => some ("[Resource" ++ s.name ++ "]")
  | .textureOverride => some ("[TextureOverride" ++ s.name ++ "]")
  | .commandList => some ("[CommandList" ++ s.name ++ "]")
  | .constants => none
  | .present => none

/-- Render a section (§4.3): blank line separator, optional leading comment
(suppressed like a non-persistent comment), title line if any, the hash
directive immediately after the title for hashed kinds, then the body in
insertion order. -/
def renderSection (skip : Bool) (s : IniSectionM) : String :=
  "\n"
    ++ (match s.comment with
        | some c => if skip then "" else "; " ++ c ++ "\n"
        | none => "")
    ++ (match getTitle s with
        | some t => t ++ "\n"
        | none => "")
    ++ (match s.kind, s.hash with
        | .textureOverride, some h => "hash = " ++ h ++ "\n"
        | _, _ => "")
    ++ String.join (s.body.map (renderLine skip))

/-- Group comparison by index, used for the ascending-order render. -/
def groupLE (g1 g2 : IniGroupM) : Prop := g1.index ≤ g2.index

instance : DecidableRel groupLE := fun g1 g2 => Nat.decLe g1.index g2.index

instance : IsTotal IniGroupM groupLE := ⟨fun g1 g2 => Nat.le_total g1.index g2.index⟩

instance : IsTrans IniGroupM groupLE := ⟨fun _ _ _ => Nat.le_trans⟩

/-- Groups in ascending index order (§4.4 `build`). -/
def sortGroups (gs : List IniGroupM) : List IniGroupM := List.insertionSort groupLE gs

/-- Render a group (§4.4): literal header, sections in insertion order,
literal footer. -/
def renderGroup (skip : Bool) (g : IniGroupM) : String :=
  g.header.getD "" ++ String.join (g.sections.map (renderSection skip)) ++ g.footer.getD ""

/-- Render op `build()` (§4.4): leading header, then each group by ascending index. -/
def IniBuilderM.build (b : IniBuilderM) : String :=
  b.header ++ String.join ((sortGroups b.groups).map (renderGroup b.skip_comments))

/-! ### Facts about the hex digest -/

theorem hexChar_mem (n : Nat) : hexChar n ∈ hexDigitsL := by
  unfold hexChar
  rcases Nat.lt_or_ge n hexDigitsL.length with hlt | hge
  · rw [List.getD_eq_getElem hexDigitsL '0' hlt]
    exact List.getElem_mem hlt
  · rw [List.getD_eq_default hexDigitsL '0' hge]
    decide

theorem hex8_all_hex (w : Nat) : ∀ c ∈ hex8 w, c ∈ hexDigitsL := by
  intro c hc
  simp only [hex8, List.mem_cons, List.not_mem_nil, or_false] at hc
  rcases hc with h | h | h | h | h | h | h | h <;> exact h ▸ hexChar_mem _

theorem hexDigits_props : ∀ c ∈ hexDigitsL, ¬c = '\n' ∧ ¬c = ';' ∧ isPySpace c = false := by
  decide

theorem sha256hex_data (s : String) :
    ∃ d : Hash8, (sha256hex s).data
      = hex8 d.a ++ hex8 d.b ++ hex8 d.c ++ hex8 d.d ++ hex8 d.e ++ hex8 d.f ++ hex8 d.g
          ++ hex8 d.h :=
  ⟨sha256digest (utf8Bytes s), rfl⟩

theorem sha256hex_all_hex (s : String) : ∀ c ∈ (sha256hex s).data, c ∈ hexDigitsL := by
  obtain ⟨d, hd⟩ := sha256hex_data s
  rw [hd]
  intro c hc
  simp only [List.mem_append] at hc
  rcases hc with ((((((h | h) | h) | h) | h) | h) | h) | h <;> exact hex8_all_hex _ c h

theorem sha256hex_length (s : String) : (sha256hex s).data.length = 64 := by
  obtain ⟨d, hd⟩ := sha256hex_data s
  rw [hd]
  simp [hex8]

theorem sha256hex_ne_nil (s : String) : (sha256hex s).data ≠ [] := by
  intro h
  have := sha256hex_length s
  rw [h] at this
  exact absurd this (by decide)

/-! ### Facts about line splitting -/

theorem splitAux_flatten : ∀ (l acc : List Char),
    (splitAux l acc).flatten = acc.reverse ++ l := by
  intro l
  induction l with
  | nil =>
      intro acc
      by_cases h : acc.isEmpty
      · simp [splitAux, h, List.isEmpty_iff.mp h]
      · simp [splitAux, h]
  | cons c rest ih =>
      intro acc
      by_cases h : c = '\n'
      · subst h
        simp [splitAux, ih]
      · simp [splitAux, h, ih (c :: acc)]

theorem splitAux_append_nl : ∀ (a : List Char) (acc b : List Char),
    splitAux (a ++ '\n' :: b) acc = splitAux (a ++ ['\n']) acc ++ splitAux b [] := by
  intro a
  induction a with
  | nil =>
      intro acc b
      simp [splitAux]
  | cons c rest ih =>
      intro acc b
      by_cases h : c = '\n'
      · subst h
        simp only [List.cons_append, splitAux, if_pos, List.append_eq, eq_self_iff_true,
          if_true]
        rw [ih [] b]
      · simp only [List.cons_append, splitAux, if_neg h, List.append_eq]
        exact ih (c :: acc) b

theorem splitAux_no_nl : ∀ (x : List Char) (acc : List Char),
    (∀ c ∈ x, ¬c = '\n') → splitAux (x ++ ['\n']) acc = [acc.reverse ++ x ++ ['\n']] := by
  intro x
  induction x with
  | nil =>
      intro acc _
      simp [splitAux]
  | cons c rest ih =>
      intro acc hx
      have hc : ¬c = '\n' := hx c (List.mem_cons_self c rest)
      simp only [List.cons_append, splitAux, if_neg hc, List.append_eq]
      rw [ih (c :: acc) (fun d hd => hx d (List.mem_cons_of_mem c hd))]
      simp

/-- The line split of signed text: content followed by a newline-free
trailer chunk plus `'\n'` splits into the content's lines plus the trailer
line, provided the content is empty or newline-terminated. -/
theorem splitAux_signed (t tl : List Char)
    (hend : t = [] ∨ t.getLast? = some '\n') (htl : ∀ c ∈ tl, ¬c = '\n') :
    splitAux (t ++ (tl ++ ['\n'])) [] = splitAux t [] ++ [tl ++ ['\n']] := by
  rcases hend with rfl | hl
  · rw [List.nil_append, splitAux_no_nl tl [] htl]
    rfl
  · obtain ⟨t', rfl⟩ := List.getLast?_eq_some_iff.mp hl
    have : (t' ++ ['\n']) ++ (tl ++ ['\n']) = t' ++ '\n' :: (tl ++ ['\n']) := by simp
    rw [this, splitAux_append_nl t' [] (tl ++ ['\n']), splitAux_no_nl tl [] htl]
    rfl

/-! ### Facts about `pyStrip` -/

theorem dropWhile_of_all_space (ws : List Char) (hws : ∀ c ∈ ws, isPySpace c = true) :
    List.dropWhile isPySpace ws = [] := by
  have := @List.dropWhile_append_of_pos Char isPySpace ws [] hws
  simpa using this

/-- Stripping ignores trailing whitespace. -/
theorem stripC_append_space (x ws : List Char) (hws : ∀ c ∈ ws, isPySpace c = true) :
    stripC (x ++ ws) = stripC x := by
  unfold stripC
  rw [List.dropWhile_append]
  by_cases hx : (List.dropWhile isPySpace x).isEmpty
  · rw [if_pos hx, dropWhile_of_all_space ws hws]
    rw [List.isEmpty_iff.mp hx]
  · rw [if_neg hx, List.reverse_append]
    rw [List.dropWhile_append_of_pos (fun c hc => hws c (List.mem_reverse.mp hc))]

/-- Stripping ignores leading whitespace. -/
theorem stripC_space_append (ws x : List Char) (hws : ∀ c ∈ ws, isPySpace c = true) :
    stripC (ws ++ x) = stripC x := by
  unfold stripC
  rw [List.dropWhile_append_of_pos hws]

/-- A chunk that starts and ends with a non-whitespace character strips to
itself. -/
theorem stripC_id (c0 : Char) (mid : List Char) (cN : Char)
    (h0 : isPySpace c0 = false) (hN : isPySpace cN = false) :
    stripC (c0 :: (mid ++ [cN])) = c0 :: (mid ++ [cN]) := by
  have h0' : ¬isPySpace c0 = true := by simp [h0]
  have hN' : ¬isPySpace cN = true := by simp [hN]
  unfold stripC
  rw [List.dropWhile_cons_of_neg h0']
  have hrev : (c0 :: (mid ++ [cN])).reverse = cN :: (mid.reverse ++ [c0]) := by simp
  rw [hrev, List.dropWhile_cons_of_neg hN']
  simp

/-! ### Facts about `pyReplace` -/

/-- If the subject contains no `';'`, replacing any pattern that starts
with `';'` leaves it unchanged. -/
theorem replFuel_no_semi (ptl new : List Char) : ∀ (fuel : Nat) (s : List Char),
    (∀ c ∈ s, ¬c = ';') → replFuel fuel s (';' :: ptl) new = s := by
  intro fuel
  induction fuel with
  | zero => intro s _; rfl
  | succ n ih =>
      intro s hs
      match s with
      | [] => rfl
      | c :: rest =>
          have hc : ¬c = ';' := hs c (List.mem_cons_self c rest)
          have hpre : (';' :: ptl).isPrefixOf (c :: rest) = false := by
            simp only [List.isPrefixOf_cons₂]
            rw [Bool.and_eq_false_iff]
            left
            simpa using fun h => hc h.symm
          simp only [replFuel, hpre, Bool.false_eq_true, if_false]
          rw [ih rest (fun d hd => hs d (List.mem_cons_of_mem c hd))]

/-- Appending never breaks a leading match: `l.isPrefixOf (l ++ m)` holds. -/
theorem isPrefixOf_append_self (l m : List Char) : l.isPrefixOf (l ++ m) = true := by
  rw [ List.isPrefixOf_iff_prefix]
  exact List.prefix_append l m

theorem replFuel_succ_cons (fuel : Nat) (c : Char) (rest old new : List Char) :
    replFuel (fuel + 1) (c :: rest) old new
      = if old.isPrefixOf (c :: rest) then
          new ++ replFuel fuel ((c :: rest).drop old.length) old new
        else c :: replFuel fuel rest old new := rfl

/-! ### The trailer through the detection pipeline -/

theorem checksumHead_cons : checksumHead.data = ';' :: (" SHA256 CHECKSUM: ").data := rfl

theorem checksumHead_no_nl : ∀ c ∈ checksumHead.data, ¬c = '\n' := by decide

/-- Stripping the checksum stamp line removes exactly its newline. -/
theorem strip_trailer (h : List Char) (hne : h ≠ []) (hhex : ∀ c ∈ h, c ∈ hexDigitsL) :
    stripC (checksumHead.data ++ h ++ ['\n']) = checksumHead.data ++ h := by
  obtain ⟨h', c, rfl⟩ : ∃ h' c, h = h' ++ [c] := by
    rcases List.eq_nil_or_concat h with rfl | ⟨L, b, hLb⟩
    · exact absurd rfl hne
    · exact ⟨L, b, by rw [hLb, List.concat_eq_append]⟩
  have hcN : isPySpace c = false := (hexDigits_props c (hhex c (by simp))).2.2
  rw [stripC_append_space (checksumHead.data ++ (h' ++ [c])) ['\n'] (by decide)]
  have hshape : checksumHead.data ++ (h' ++ [c])
      = ';' :: (((" SHA256 CHECKSUM: ").data ++ h') ++ [c]) := by
    rw [checksumHead_cons]
    simp
  rw [hshape, stripC_id ';' _ c (by decide) hcN, ← hshape]

/-- Python `str.replace` extracts exactly the raw hash from the stripped stamp:
the leading occurrence of the trailer head is removed and, because a hex
digest contains no `';'`, nothing further matches. -/
theorem replace_head (h : List Char) (hhex : ∀ c ∈ h, c ∈ hexDigitsL) :
    pyReplace ⟨checksumHead.data ++ h⟩ checksumHead "" = ⟨h⟩ := by
  unfold pyReplace
  apply congrArg String.mk
  show replFuel (checksumHead.data ++ h).length (checksumHead.data ++ h) checksumHead.data []
      = h
  have hsub : checksumHead.data ++ h = ';' :: ((" SHA256 CHECKSUM: ").data ++ h) := by
    rw [checksumHead_cons]
    simp
  have hpre : checksumHead.data.isPrefixOf
      (';' :: ((" SHA256 CHECKSUM: ").data ++ h)) = true := by
    rw [← hsub]
    exact isPrefixOf_append_self checksumHead.data h
  rw [hsub, List.length_cons, replFuel_succ_cons, if_pos hpre]
  rw [List.nil_append, ← hsub, List.drop_left]
  rw [checksumHead_cons]
  exact replFuel_no_semi _ [] _ h (fun c hc => (hexDigits_props c (hhex c hc)).2.1)

/-- Detection on a list of lines ending in a dedicated last line. -/
theorem is_ini_edited_lines_concat (A : List String) (x : String) :
    is_ini_edited_lines (A ++ [x])
      = if pyStartsWith (pyStrip x) checksumHead = false then some false
        else if sha256hex (joinS A) ≠ pyReplace (pyStrip x) checksumHead "" then some true
        else some false := by
  unfold is_ini_edited_lines
  rw [List.getLast?_concat, List.dropLast_concat]

/-- The checksum-verification pipeline on signed-shaped content: text `t`
(empty or newline-terminated) followed by a stamp line carrying a nonempty
all-hex claimed value `h` is reported edited exactly when the recomputed
digest of `t` differs from `h`. -/
theorem detect_signed (t h : List Char)
    (hend : t = [] ∨ t.getLast? = some '\n')
    (hne : h ≠ []) (hhex : ∀ c ∈ h, c ∈ hexDigitsL) :
    is_ini_edited ⟨t ++ ((checksumHead.data ++ h) ++ ['\n'])⟩
      = if sha256hex ⟨t⟩ = (⟨h⟩ : String) then some false else some true := by
  have htl : ∀ c ∈ checksumHead.data ++ h, ¬c = '\n' := by
    intro c hc
    rcases List.mem_append.mp hc with hc | hc
    · exact checksumHead_no_nl c hc
    · exact (hexDigits_props c (hhex c hc)).1
  unfold is_ini_edited fileLines
  show is_ini_edited_lines
      ((splitAux (t ++ ((checksumHead.data ++ h) ++ ['\n'])) []).map (fun l => ⟨l⟩))
    = _
  rw [splitAux_signed t (checksumHead.data ++ h) hend htl]
  simp only [List.map_append, List.map_cons, List.map_nil]
  rw [is_ini_edited_lines_concat]
  have hstrip : pyStrip ⟨(checksumHead.data ++ h) ++ ['\n']⟩ = ⟨checksumHead.data ++ h⟩ := by
    show (⟨stripC ((checksumHead.data ++ h) ++ ['\n'])⟩ : String) = _
    exact congrArg String.mk (strip_trailer h hne hhex)
  rw [hstrip]
  have hsw : pyStartsWith ⟨checksumHead.data ++ h⟩ checksumHead = true := by
    show checksumHead.data.isPrefixOf (checksumHead.data ++ h) = true
    exact isPrefixOf_append_self checksumHead.data h
  rw [hsw, if_neg (by decide), replace_head h hhex]
  have hjoin : joinS ((splitAux t []).map (fun l => ⟨l⟩)) = ⟨t⟩ := by
    unfold joinS
    apply congrArg String.mk
    rw [List.map_map]
    have hcomp : (String.data ∘ fun l => (⟨l⟩ : String)) = id := rfl
    rw [hcomp, List.map_id, splitAux_flatten t []]
    rfl
  rw [hjoin]
  by_cases heq : sha256hex ⟨t⟩ = (⟨h⟩ : String)
  · rw [if_neg (by simpa using heq), if_pos heq]
  · rw [if_pos heq, if_neg (by simpa using heq)]

/-- The signed text, as a `String.mk` of its character data, grouped for
`detect_signed`. -/
theorem with_checksum_mk (t : String) :
    with_checksum t
      = ⟨t.data ++ ((checksumHead.data ++ (sha256hex t).data) ++ ['\n'])⟩ := by
  apply String.ext
  show ((t ++ "; SHA256 CHECKSUM: " ++ sha256hex t ++ "\n").data = _)
  simp only [String.data_append]
  simp [checksumHead, List.append_assoc]

/-- Flipping a character strictly inside the pre-trailer text of a signed
document tampers only with that text. -/
theorem flip_signed (t : String) (i : Nat) (c : Char) (hi : i < t.length) :
    flipAt (with_checksum t) i c
      = ⟨(flipAt t i c).data ++ ((checksumHead.data ++ (sha256hex t).data) ++ ['\n'])⟩ := by
  rw [with_checksum_mk]
  apply String.ext
  show (t.data ++ ((checksumHead.data ++ (sha256hex t).data) ++ ['\n'])).set i c
      = t.data.set i c ++ ((checksumHead.data ++ (sha256hex t).data) ++ ['\n'])
  exact List.set_append_left i c hi

/-- Generic reduction of detection once the last line is known. -/
theorem is_ini_edited_lines_some (data : List String) (lastL : String)
    (hlast : data.getLast? = some lastL) :
    is_ini_edited_lines data
      = if pyStartsWith (pyStrip lastL) checksumHead = false then some false
        else if sha256hex (joinS data.dropLast)
            ≠ pyReplace (pyStrip lastL) checksumHead "" then some true
        else some false := by
  unfold is_ini_edited_lines
  rw [hlast]

/-! ### Facts about the builder model -/

/-- Appending a section to a group already present in the list appends to
that group's section list. -/
theorem sectionsOf_add_found (s : IniSectionM) (idx : Nat) : ∀ gs : List IniGroupM,
    gs.any (fun g => g.index == idx) = true →
    sectionsOf ((gs.map (fun g => if g.index == idx
          then { g with sections := g.sections ++ [s] } else g)).find?
        (fun g => g.index == idx))
      = sectionsOf (gs.find? (fun g => g.index == idx)) ++ [s] := by
  intro gs
  induction gs with
  | nil => intro h; simp at h
  | cons g rest ih =>
      intro hany
      by_cases hg : g.index = idx
      · simp [hg, sectionsOf]
      · have hor : (g.index == idx) = false := beq_eq_false_iff_ne.mpr hg
        have hany2 : (rest.any fun g => g.index == idx) = true := by
          rwa [List.any_cons, hor, Bool.false_or] at hany
        have hg2 : ¬((g.index == idx) = true) := by simp [hor]
        simp only [List.map_cons, hor, Bool.false_eq_true, if_false]
        rw [@List.find?_cons_of_neg _ (fun g => g.index == idx) g _ hg2,
          @List.find?_cons_of_neg _ (fun g => g.index == idx) g _ hg2]
        exact ih hany2

/-- Op `add_section` appends to the group at `idx`, creating it if absent —
the spec's "sections within a group render in insertion order" invariant at
the data level. -/
theorem sectionsAt_add (b : IniBuilderM) (s : IniSectionM) (idx : Nat) :
    sectionsAt (add_section b s idx) idx = sectionsAt b idx ++ [s] := by
  unfold add_section sectionsAt
  by_cases hany : b.groups.any (fun g => g.index == idx) = true
  · rw [if_pos hany]
    exact sectionsOf_add_found s idx b.groups hany
  · rw [if_neg hany]
    have hnone : b.groups.find? (fun g => g.index == idx) = none := by
      rw [List.find?_eq_none]
      intro x hx hpx
      exact hany (List.any_eq_true.mpr ⟨x, hx, hpx⟩)
    show sectionsOf ((b.groups ++ [(⟨idx, none, none, [s]⟩ : IniGroupM)]).find?
          (fun g => g.index == idx))
        = sectionsOf (b.groups.find? (fun g => g.index == idx)) ++ [s]
    rw [List.find?_append, hnone]
    simp [sectionsOf]

/-! ### The claims -/

/-- C1 (amended): round-trip stability of signing and edit-detection holds
for every text the builder produces that is empty or newline-terminated:
signing it with `with_checksum` and running `is_ini_edited` on the
resulting file reports it as not manually edited, with no mutation in
between.  (The unrestricted claim fails when the rendered text does not
end in a newline; see the counterexample.) -/
theorem sign_roundtrip_unedited (b : IniBuilderM)
    (hend : b.build = "" ∨ b.build.data.getLast? = some '\n') :
    is_ini_edited (with_checksum b.build) = some false := by
  have hend' : b.build.data = [] ∨ b.build.data.getLast? = some '\n' := by
    rcases hend with h | h
    · left
      rw [h]
    · right
      exact h
  rw [with_checksum_mk b.build,
    detect_signed b.build.data (sha256hex b.build).data hend' (sha256hex_ne_nil _)
      (sha256hex_all_hex _),
    if_pos rfl]

set_option maxRecDepth 8192 in
/-- C1 witness: a builder holding only the standard leading header
round-trips to "not edited". -/
theorem sign_roundtrip_unedited_witness :
    is_ini_edited (with_checksum
        (IniBuilderM.build ⟨false, "; WWMI ALPHA-1 INI\n\n", []⟩)) = some false :=
  sign_roundtrip_unedited ⟨false, "; WWMI ALPHA-1 INI\n\n", []⟩ (Or.inr (by decide))

set_option maxRecDepth 8192 in
/-- C1 counterexample: a builder whose document renders to `"   "` (no
trailing newline) signs into a single line that still strips to a valid
stamp, and detection then reports the freshly signed file as edited. -/
theorem sign_roundtrip_counterexample :
    is_ini_edited (with_checksum (IniBuilderM.build ⟨false, "   ", []⟩)) = some true := by
  decide

/-- C2 (amended): flipping a single character in the portion before the
trailer of a signed text is reported as an edit, provided the flipped text
still ends with a newline (so the stamp stays on its own last line) and
its SHA-256 digest differs from the signed one (anything else would be a
SHA-256 collision). -/
theorem tamper_flip_detected (t : String) (i : Nat) (c : Char) (hi : i < t.length)
    (hend : (flipAt t i c).data = [] ∨ (flipAt t i c).data.getLast? = some '\n')
    (hdig : sha256hex (flipAt t i c) ≠ sha256hex t) :
    is_ini_edited (flipAt (with_checksum t) i c) = some true := by
  rw [flip_signed t i c hi,
    detect_signed (flipAt t i c).data (sha256hex t).data hend (sha256hex_ne_nil _)
      (sha256hex_all_hex _),
    if_neg hdig]

set_option maxRecDepth 8192 in
/-- C2 witness: flipping `'a'` to `'x'` in signed `"ab\n"` is detected. -/
theorem tamper_flip_detected_witness :
    is_ini_edited (flipAt (with_checksum "ab\n") 0 'x') = some true :=
  tamper_flip_detected "ab\n" 0 'x' (by decide) (Or.inr (by decide)) (by decide)

set_option maxRecDepth 8192 in
/-- C2 counterexample: flipping the newline at position 1 of signed
`"a\n"` — a single character in the portion before the trailer — merges
the content with the stamp line, the prefix check fails, and detection
returns `false` instead of the claimed `true`. -/
theorem tamper_flip_counterexample :
    is_ini_edited (flipAt (with_checksum "a\n") 1 'X') = some false
    ∧ 1 < ("a\n" : String).length :=
  ⟨by decide, by decide⟩

/-- C3 (amended): for every existing file with at least one line whose
last line does not start with the fixed checksum head — in particular any
nonempty file with no trailer line at all — `is_ini_edited` returns
`false` rather than reporting modification or erroring.  (A zero-line file
instead raises; see the counterexample and C9.) -/
theorem fail_open_no_trailer_head (data : List String) (lastL : String)
    (hlast : data.getLast? = some lastL)
    (hsw : pyStartsWith (pyStrip lastL) checksumHead = false) :
    is_ini_edited_lines data = some false := by
  rw [is_ini_edited_lines_some data lastL hlast, if_pos hsw]

/-- C3 witness: an ordinary hand-authored ini with no stamp fails open. -/
theorem fail_open_no_trailer_head_witness :
    is_ini_edited_lines ["[Constants]\n", "global $mod_id = -1000\n"] = some false :=
  fail_open_no_trailer_head ["[Constants]\n", "global $mod_id = -1000\n"]
    "global $mod_id = -1000\n" (by decide) (by decide)

set_option maxRecDepth 8192 in
/-- C3 counterexample: a file with zero lines has no trailer line at all,
yet detection does not return `false` — it raises (modelled `none`). -/
theorem fail_open_counterexample_empty_file :
    is_ini_edited "" = none ∧ is_ini_edited "" ≠ some false :=
  ⟨rfl, by decide⟩

/-- C4: for every existing file whose last (stripped) line starts with the
fixed checksum head, detection reports an edit exactly when the SHA-256
hex digest recomputed over the concatenation of all lines but the last
differs from the value the stamp claims (extracted, as in the source, by
deleting every occurrence of the head from the stripped line). -/
theorem verify_iff_digest_differs (data : List String) (lastL : String)
    (hlast : data.getLast? = some lastL)
    (hsw : pyStartsWith (pyStrip lastL) checksumHead = true) :
    is_ini_edited_lines data = some true
      ↔ sha256hex (joinS data.dropLast) ≠ pyReplace (pyStrip lastL) checksumHead "" := by
  rw [is_ini_edited_lines_some data lastL hlast, if_neg (by simp [hsw])]
  by_cases hd : sha256hex (joinS data.dropLast) = pyReplace (pyStrip lastL) checksumHead ""
  · rw [if_neg (not_not_intro hd)]
    simp [hd]
  · rw [if_pos hd]
    simp [hd]

set_option maxRecDepth 8192 in
/-- C4 witness: a stamp claiming an all-zero digest over `"a\n"`. -/
theorem verify_iff_digest_differs_witness :
    is_ini_edited_lines ["a\n",
        "; SHA256 CHECKSUM: 0000000000000000000000000000000000000000000000000000000000000000\n"]
      = some true
      ↔ sha256hex (joinS (["a\n",
            "; SHA256 CHECKSUM: 0000000000000000000000000000000000000000000000000000000000000000\n"].dropLast))
        ≠ pyReplace (pyStrip
            "; SHA256 CHECKSUM: 0000000000000000000000000000000000000000000000000000000000000000\n")
            checksumHead "" :=
  verify_iff_digest_differs ["a\n",
      "; SHA256 CHECKSUM: 0000000000000000000000000000000000000000000000000000000000000000\n"]
    "; SHA256 CHECKSUM: 0000000000000000000000000000000000000000000000000000000000000000\n"
    (by decide) (by decide)

/-- C5 (amended): `with_checksum` returns its input unchanged followed by
exactly the appended trailer `'; SHA256 CHECKSUM: '` plus 64 lowercase-hex
characters plus a newline; when the input is empty or newline-terminated
that trailer is the literal last line of the result.  (For an input with
no final newline the trailer merges with the input's last partial line;
see the counterexample.) -/
theorem with_checksum_format (t : String) :
    with_checksum t = t ++ checksumHead ++ sha256hex t ++ "\n"
    ∧ (sha256hex t).length = 64
    ∧ (∀ c ∈ (sha256hex t).data, c ∈ hexDigitsL)
    ∧ ((t = "" ∨ t.data.getLast? = some '\n') →
        (fileLines (with_checksum t)).getLast?
          = some (checksumHead ++ sha256hex t ++ "\n")) := by
  refine ⟨rfl, sha256hex_length t, sha256hex_all_hex t, ?_⟩
  intro hend
  have hend' : t.data = [] ∨ t.data.getLast? = some '\n' := by
    rcases hend with h | h
    · left
      rw [h]
    · right
      exact h
  have htl : ∀ c ∈ checksumHead.data ++ (sha256hex t).data, ¬c = '\n' := by
    intro c hc
    rcases List.mem_append.mp hc with hc | hc
    · exact checksumHead_no_nl c hc
    · exact (hexDigits_props c (sha256hex_all_hex t c hc)).1
  rw [with_checksum_mk t]
  show ((splitAux (t.data ++ ((checksumHead.data ++ (sha256hex t).data) ++ ['\n'])) []).map
      (fun l => (⟨l⟩ : String))).getLast? = _
  rw [splitAux_signed t.data (checksumHead.data ++ (sha256hex t).data) hend' htl]
  simp only [List.map_append, List.map_cons, List.map_nil]
  rw [List.getLast?_concat]
  apply congrArg some
  apply String.ext
  simp [checksumHead, List.append_assoc]

set_option maxRecDepth 8192 in
/-- C5 witness: the format contract evaluated at the signed text
`"x\n"`. -/
theorem with_checksum_format_witness :
    (fileLines (with_checksum "x\n")).getLast?
        = some (checksumHead ++ sha256hex "x\n" ++ "\n")
    ∧ (sha256hex "x\n").length = 64 :=
  ⟨(with_checksum_format "x\n").2.2.2 (Or.inr (by decide)), (with_checksum_format "x\n").2.1⟩

set_option maxRecDepth 8192 in
/-- C5 counterexample: signing `"abc"` (no trailing newline) leaves the
trailer glued to `"abc"`, so the trailer is not the literal last line of
the result. -/
theorem with_checksum_counterexample :
    (fileLines (with_checksum "abc")).getLast?
      ≠ some (checksumHead ++ sha256hex "abc" ++ "\n") := by
  decide

/-- C6 (amended): a malformed trailer whose (stripped) last line does not
carry the fixed checksum head degrades to "not modified" without error —
but a last line that does carry the head with a garbled hash value is
reported as modified (`true`), not fail-open `false`: any claimed value
other than the recomputed digest yields `true`. -/
theorem garbled_hash_reports_modified (data : List String) (lastL : String)
    (hlast : data.getLast? = some lastL)
    (hsw : pyStartsWith (pyStrip lastL) checksumHead = true)
    (hdiff : sha256hex (joinS data.dropLast) ≠ pyReplace (pyStrip lastL) checksumHead "") :
    is_ini_edited_lines data = some true := by
  rw [is_ini_edited_lines_some data lastL hlast, if_neg (by simp [hsw]), if_pos hdiff]

set_option maxRecDepth 8192 in
/-- C6 witness: a stamp with four garbled hex characters as its value. -/
theorem garbled_hash_reports_modified_witness :
    is_ini_edited_lines ["x\n", "; SHA256 CHECKSUM: ffff\n"] = some true :=
  garbled_hash_reports_modified ["x\n", "; SHA256 CHECKSUM: ffff\n"]
    "; SHA256 CHECKSUM: ffff\n" (by decide) (by decide) (by decide)

set_option maxRecDepth 8192 in
/-- C6 counterexample: a correctly prefixed stamp with the garbled value
`"zzzz"` is reported as a modification (`true`), not degraded to
`false`. -/
theorem garbled_hash_counterexample :
    is_ini_edited_lines ["x\n", "; SHA256 CHECKSUM: zzzz\n"] = some true
    ∧ is_ini_edited_lines ["x\n", "; SHA256 CHECKSUM: zzzz\n"] ≠ some false :=
  ⟨by decide, by decide⟩

set_option maxHeartbeats 1600000 in
set_option maxRecDepth 8192 in
/-- C7: groups render in ascending numeric index order regardless of
population order — in particular, registering group headers in the
`IniMaker.__post_init__` call order 0, 4, 5, 2, 1, 3, 6, 7, 8 yields the
render order 0 through 8 — while `add_section` appends to its group, so
sections within a group keep insertion order. -/
theorem groups_render_ascending :
    (∀ b : IniBuilderM,
        List.Sorted (· ≤ ·) ((sortGroups b.groups).map IniGroupM.index))
    ∧ (∀ t0 t4 t5 t2 t1 t3 t6 t7 t8 : String,
        ((sortGroups (set_group_header (set_group_header (set_group_header (set_group_header
              (set_group_header (set_group_header (set_group_header (set_group_header
                (set_group_header ⟨false, "", []⟩ 0 t0) 4 t4) 5 t5) 2 t2) 1 t1) 3 t3) 6 t6)
              7 t7) 8 t8).groups).map IniGroupM.index)
          = [0, 1, 2, 3, 4, 5, 6, 7, 8])
    ∧ (∀ (b : IniBuilderM) (s : IniSectionM) (idx : Nat),
        sectionsAt (add_section b s idx) idx = sectionsAt b idx ++ [s]) := by
  refine ⟨?_, ?_, sectionsAt_add⟩
  · intro b
    have hs := List.sorted_insertionSort groupLE b.groups
    exact List.Pairwise.map IniGroupM.index (fun g1 g2 hle => hle) hs
  · intro t0 t4 t5 t2 t1 t3 t6 t7 t8
    rfl

/-- C9: a zero-line file makes `is_ini_edited` raise rather than return a
boolean (`data[-1]` on the empty line list, modelled as `none`), and on
any file with at least one line it does return a boolean. -/
theorem zero_lines_raises_nonempty_total :
    is_ini_edited "" = none
    ∧ ∀ data : List String, data ≠ [] → is_ini_edited_lines data ≠ none := by
  refine ⟨rfl, ?_⟩
  intro data hne
  obtain ⟨lastL, hlast⟩ : ∃ l, data.getLast? = some l := by
    cases hl : data.getLast? with
    | none => exact absurd (List.getLast?_eq_none_iff.mp hl) hne
    | some l => exact ⟨l, rfl⟩
  rw [is_ini_edited_lines_some data lastL hlast]
  split
  · simp
  · split <;> simp

/-- C9 witness: the empty file raises while a one-line file returns a
boolean. -/
theorem zero_lines_raises_witness :
    is_ini_edited "" = none ∧ is_ini_edited_lines ["[Constants]\n"] ≠ none :=
  ⟨zero_lines_raises_nonempty_total.1,
    zero_lines_raises_nonempty_total.2 ["[Constants]\n"] (by decide)⟩

/-- C10: wrapping the last line in extra whitespace changes nothing —
detection strips the last line before checking the head and extracting the
claimed hash, so a whitespace-wrapped last line behaves exactly like the
bare one over the same preceding lines. -/
theorem ws_wrapped_trailer_equiv (rest : List String) (ws1 ws2 core : List Char)
    (h1 : ∀ c ∈ ws1, isPySpace c = true) (h2 : ∀ c ∈ ws2, isPySpace c = true) :
    is_ini_edited_lines (rest ++ [⟨ws1 ++ (core ++ ws2)⟩])
      = is_ini_edited_lines (rest ++ [⟨core⟩]) := by
  rw [is_ini_edited_lines_some (rest ++ [⟨ws1 ++ (core ++ ws2)⟩]) ⟨ws1 ++ (core ++ ws2)⟩
      (List.getLast?_concat rest),
    is_ini_edited_lines_some (rest ++ [⟨core⟩]) ⟨core⟩ (List.getLast?_concat rest),
    List.dropLast_concat, List.dropLast_concat]
  have hstrip : pyStrip ⟨ws1 ++ (core ++ ws2)⟩ = pyStrip ⟨core⟩ := by
    show (⟨stripC (ws1 ++ (core ++ ws2))⟩ : String) = ⟨stripC core⟩
    apply congrArg String.mk
    rw [stripC_space_append ws1 (core ++ ws2) h1, stripC_append_space core ws2 h2]
  rw [hstrip]

set_option maxRecDepth 8192 in
/-- C10 witness: two leading blanks before a correct stamp over `"a\n"`
verify exactly like the literal stamp line. -/
theorem ws_wrapped_trailer_equiv_witness :
    is_ini_edited_lines (["a\n"] ++ [⟨[' ', ' ']
        ++ (("; SHA256 CHECKSUM: 87428fc522803d31065e7bce3cf03fe475096631e5e07bbd7a0fde60c4cf25c7\n").data
          ++ [])⟩])
      = is_ini_edited_lines (["a\n"]
        ++ [⟨("; SHA256 CHECKSUM: 87428fc522803d31065e7bce3cf03fe475096631e5e07bbd7a0fde60c4cf25c7\n").data⟩]) :=
  ws_wrapped_trailer_equiv ["a\n"] [' ', ' '] []
    ("; SHA256 CHECKSUM: 87428fc522803d31065e7bce3cf03fe475096631e5e07bbd7a0fde60c4cf25c7\n").data
    (by decide) (by decide)

end WWMI
